import Mathlib

/-!
Verification of the Syracuse 311 (SYRCityline) data API client
(`src/data_ingestion/arcgis_api.py`).

The module is a thin pagination client: it builds ArcGIS query parameters,
issues HTTP GETs, unwraps the JSON envelope, loops with an increasing offset
until a short page or a record cap, and writes a CSV plus a JSON metadata
sidecar.  We shallowly embed the pure decision logic of each method:

* `fetch_records_params` — the query-parameter dictionary built by
  `SyracuseDataAPI.fetch_records` (lines 138-148).
* `make_request` — the try/except mapping of transport outcomes to raised
  exception messages in `SyracuseDataAPI._make_request` (lines 67-79).
* `fetch_records_core` — the envelope unwrapping of `fetch_records`
  (lines 152-171): API-level error check, feature extraction.
* `fetchAllLoop` / `fetch_all_records` — the pagination loop of
  `SyracuseDataAPI.fetch_all_records` (lines 204-241), driven by the
  sequence of pages the executor returns on successive calls; the model
  records the `resultOffset` passed at each call and the accumulated pages.
* `get_field_info` — the catch-all diagnostic fetch (lines 81-110).
* `save_metadata` / `metadata_path` — the metadata sidecar contents and the
  sidecar path computation of `save_raw_data` (lines 285-309), including
  Python's `str.replace` (replace every occurrence) as `replaceAll`.

Machine integers are modelled as `Int` (Python integers are unbounded);
row containers as Lean lists; fallible operations return `Except`.
-/

/-- A transport-layer outcome seen by `_make_request`: a decoded JSON body,
a timeout, or any other `requests` exception carrying a message. -/
inductive TransportOutcome (α : Type) where
  | ok (body : α)
  | timeout
  | requestException (msg : String)
deriving Repr, DecidableEq

/-- Message raised on `requests.exceptions.Timeout`
(line 77: Request timed out after ... seconds). -/
def timeoutMsg (timeout : Int) : String :=
  "Request timed out after " ++ toString timeout ++ " seconds"

/-- Message raised on any other `requests.exceptions.RequestException`
(line 79: API request failed: ...). -/
def transportMsg (msg : String) : String :=
  "API request failed: " ++ msg

/-- Message raised by `fetch_records` when the decoded body has an
`error` key (line 157: API Error: ...). -/
def apiErrorMsg (payload : String) : String :=
  "API Error: " ++ payload

/-- Embeds `SyracuseDataAPI._make_request` (lines 67-79): on success return the
decoded body, on timeout or other transport failure raise an exception
whose message is the only carrier of the failure kind. -/
def make_request (timeout : Int) (outcome : TransportOutcome α) : Except String α :=
  match outcome with
  | .ok body => .ok body
  | .timeout => .error (timeoutMsg timeout)
  | .requestException msg => .error (transportMsg msg)

/-- The three failure kinds of the error taxonomy (spec section 7). -/
inductive ErrorKind where
  | timeoutK
  | transportK
  | apiK
deriving Repr, DecidableEq

/-- Classify a raised message back into its failure kind by its leading
characters; shows the three message shapes are distinguishable. -/
def classifyError (s : String) : Option ErrorKind :=
  match s.data with
  | 'R' :: _ => some .timeoutK
  | 'A' :: 'P' :: 'I' :: ' ' :: 'r' :: _ => some .transportK
  | 'A' :: 'P' :: 'I' :: ' ' :: 'E' :: _ => some .apiK
  | _ => none

/-- Query parameters built by `fetch_records` (lines 138-148). -/
structure QueryParams where
  whereClause : String
  outFields : String
  returnGeometry : String
  fmt : String
  resultOffset : Int
  resultRecordCount : Int
  orderByFields : Option String
deriving Repr, DecidableEq

/-- The parameter dictionary constructed at lines 138-148 of
`fetch_records`: `resultRecordCount` is `min(limit, 2000)` and
`orderByFields` is present only when `order_by` was given. -/
def fetch_records_params (limit : Int) (offset : Int) (where_clause : String)
    (fields : Option (List String)) (return_geometry : Bool)
    (order_by : Option String) : QueryParams :=
  { whereClause := where_clause
  , outFields := match fields with
      | some fs => String.intercalate "," fs
      | none => "*"
  , returnGeometry := if return_geometry then "true" else "false"
  , fmt := "json"
  , resultOffset := offset
  , resultRecordCount := min limit 2000
  , orderByFields := order_by }

/-- A raw row: the `attributes` mapping of one feature. -/
def RawRow : Type := List (String × String)

/-- One element of the response `features` array; `attributes` may be
absent (`feature.get('attributes', {})`, line 166). -/
structure Feature where
  attributes : Option RawRow

/-- Decoded JSON body of a query response: an optional top-level `error`
payload and an optional `features` array (`data.get('features', [])`). -/
structure ApiBody where
  error : Option String
  features : Option (List Feature)

/-- Embeds `fetch_records` after parameter building (lines 152-171): make the
request, raise `API Error: ...` if the body carries an `error` key even
though HTTP succeeded, otherwise extract the attribute rows (an empty
`features` list yields an empty frame). -/
def fetch_records_core (timeout : Int) (outcome : TransportOutcome ApiBody) :
    Except String (List RawRow) :=
  match make_request timeout outcome with
  | .error e => .error e
  | .ok data =>
    match data.error with
    | some payload => .error (apiErrorMsg payload)
    | none =>
      let features := data.features.getD []
      .ok (features.map (fun f => f.attributes.getD []))

/-- Truthiness test of `if max_records and offset >= max_records`
(line 228): `None` and `0` are falsy, so the cap triggers only for a
nonzero `max_records` with `offset >= max_records`. -/
def capReached (max_records : Option Int) (offset : Nat) : Bool :=
  match max_records with
  | none => false
  | some m => m != 0 && (m ≤ (offset : Int))

/-- The pagination loop of `fetch_all_records` (lines 204-236), driven by
the successive pages the executor returns (`pages`); once `pages` is
exhausted the executor returns an empty page.  Returns the list of
offsets passed to the executor calls in order, and the appended batches.
Per iteration, in source order: an empty batch breaks before appending;
otherwise the batch is appended, the offset advances by the batch length,
then the cap check breaks, then the short-page check breaks. -/
def fetchAllLoop (batch_size : Nat) (max_records : Option Int) :
    List (List α) → Nat → List Nat × List (List α)
  | [], offset => ([offset], [])
  | p :: rest, offset =>
    if p.isEmpty then ([offset], [])
    else
      let offset' := offset + p.length
      if capReached max_records offset' then ([offset], [p])
      else if p.length < batch_size then ([offset], [p])
      else
        let r := fetchAllLoop batch_size max_records rest offset'
        (offset :: r.1, p :: r.2)

/-- Result of one pagination run: the offsets used (one per executor
call), the appended batches, and the concatenated accumulated result
(`pd.concat(all_data)`, line 241; an empty `all_data` yields an empty
frame, line 239). -/
structure FetchRun (α : Type) where
  offsets : List Nat
  batches : List (List α)
  records : List α

/-- Embeds `SyracuseDataAPI.fetch_all_records` (lines 194-248) as a function of
the page sequence the executor serves: start at offset 0, loop, then
concatenate the batches in fetch order. -/
def fetch_all_records (pages : List (List α)) (batch_size : Nat)
    (max_records : Option Int) : FetchRun α :=
  let r := fetchAllLoop batch_size max_records pages 0
  { offsets := r.1, batches := r.2, records := r.2.flatten }

/-- A field descriptor from the metadata endpoint; `name` or `type` may be
missing from the JSON object. -/
structure ApiField where
  name : Option String
  ftype : Option String

/-- Embeds `SyracuseDataAPI.get_field_info` (lines 81-110): the whole body is a
try/except returning `[]` on any exception.  Inside the try block,
`field['name']` / `field['type']` (lines 103, 105) raise `KeyError` on a
malformed descriptor, which the catch-all also turns into `[]`. -/
def get_field_info (outcome : Except String (List ApiField)) : List ApiField :=
  match outcome with
  | .error _ => []
  | .ok fields =>
    if fields.all (fun f => f.name.isSome && f.ftype.isSome) then fields
    else []

/-- A pandas DataFrame, column-major: ordered columns, each a name with
its list of values.  `Created_at_local` values are strings (the raw field
reference in the module docstring), so column min/max is the
lexicographic string minimum/maximum, as in Python. -/
structure PdDataFrame where
  cols : List (String × List String)

/-- Embeds `df.columns.tolist()`. -/
def columnsOf (df : PdDataFrame) : List String := df.cols.map Prod.fst

/-- Embeds `len(df)`: the number of rows. -/
def nRows (df : PdDataFrame) : Nat :=
  match df.cols with
  | [] => 0
  | c :: _ => c.2.length

/-- Column access `df[name]` (first column of that name). -/
def getCol (df : PdDataFrame) (name : String) : List String :=
  (df.cols.lookup name).getD []

/-- Python character comparison: by code point. -/
def charLt (a b : Char) : Bool := a.toNat < b.toNat

/-- Python string comparison `a < b`: lexicographic on code points. -/
def lexLt : List Char → List Char → Bool
  | [], [] => false
  | [], _ :: _ => true
  | _ :: _, [] => false
  | a :: as, b :: bs =>
    if charLt a b then true
    else if charLt b a then false
    else lexLt as bs

/-- Python string comparison `a < b`. -/
def pyStrLt (a b : String) : Bool := lexLt a.data b.data

/-- Two-argument minimum under Python string comparison. -/
def pyMin (a b : String) : String := if pyStrLt b a then b else a

/-- Two-argument maximum under Python string comparison. -/
def pyMax (a b : String) : String := if pyStrLt a b then b else a

/-- Embeds `Series.min()` on a string column: the lexicographic minimum, `None`
when the column is empty. -/
def seriesMinVal : List String → Option String
  | [] => none
  | v :: rest =>
    match seriesMinVal rest with
    | none => some v
    | some m => some (pyMin v m)

/-- Embeds `Series.max()` on a string column. -/
def seriesMaxVal : List String → Option String
  | [] => none
  | v :: rest =>
    match seriesMaxVal rest with
    | none => some v
    | some m => some (pyMax v m)

/-- Embeds `str(series.min())`: an empty column's min is NaN, rendered nan. -/
def seriesMinStr (l : List String) : String :=
  match seriesMinVal l with
  | some v => v
  | none => "nan"

/-- Embeds `str(series.max())`. -/
def seriesMaxStr (l : List String) : String :=
  match seriesMaxVal l with
  | some v => v
  | none => "nan"

/-- The metadata sidecar contents written by `save_raw_data`
(lines 297-305; the extraction timestamp is wall-clock and not
modelled). -/
structure ExtractionMetadata where
  record_count : Nat
  columns : List String
  date_min : Option String
  date_max : Option String
deriving Repr, DecidableEq

/-- The `metadata` dictionary of `save_raw_data` (lines 297-305):
`record_count = len(df)`, `columns = df.columns.tolist()`, and the date
range is the stringified min/max of `Created_at_local` when that column
is present, `None` otherwise. -/
def save_metadata (df : PdDataFrame) : ExtractionMetadata :=
  { record_count := nRows df
  , columns := columnsOf df
  , date_min :=
      if (columnsOf df).contains "Created_at_local" then
        some (seriesMinStr (getCol df "Created_at_local"))
      else none
  , date_max :=
      if (columnsOf df).contains "Created_at_local" then
        some (seriesMaxStr (getCol df "Created_at_local"))
      else none }

/-- Python `str.replace(pat, rep)` on character lists: scan left to
right, replacing every non-overlapping occurrence of `pat`.  The `fuel`
argument only makes the recursion structural; it is always called with
at least the length of the scanned list, which strictly shrinks at every
step. -/
def replaceAllAux (pat rep : List Char) : Nat → List Char → List Char
  | _, [] => []
  | 0, _ :: _ => []
  | fuel + 1, c :: rest =>
    if pat.isPrefixOf (c :: rest) ∧ pat ≠ [] then
      rep ++ replaceAllAux pat rep fuel (List.drop (pat.length - 1) rest)
    else
      c :: replaceAllAux pat rep fuel rest

/-- Python `str.replace(pat, rep)`: replace every occurrence. -/
def replaceAll (pat rep s : List Char) : List Char :=
  replaceAllAux pat rep s.length s

/-- The sidecar path of `save_raw_data` (line 307):
`filepath.replace(csv-suffix, metadata-suffix)` — Python `str.replace`
substitutes every occurrence, not only a trailing one. -/
def metadata_path (filepath : String) : String :=
  ⟨replaceAll ".csv".data "_metadata.json".data filepath.data⟩

/-- Modelled from the spec ("a path with the same base name as the
tabular file with only the suffix swapped"): drop the trailing `.csv` and
append the metadata suffix.  Used only to compare against the source's
`metadata_path`. -/
def spec_suffix_swap (filepath : String) : String :=
  filepath.dropRight 4 ++ "_metadata.json"

/-- Holds when the pattern occurs nowhere inside the stem, even allowing
a match to run off the stem's end into a following copy of the pattern:
for each nonempty suffix `b` of the stem, `pat` is not a prefix of
`b ++ pat`. -/
def noInnerOccur (pat : List Char) : List Char → Bool
  | [] => true
  | c :: rest => !(pat.isPrefixOf ((c :: rest) ++ pat)) && noInnerOccur pat rest

/-! ### Properties of the Python string order -/

lemma lexLt_irrefl : ∀ l : List Char, lexLt l l = false
  | [] => rfl
  | a :: as => by simp [lexLt, charLt, lexLt_irrefl as]

lemma lexLt_asymm : ∀ a b : List Char, lexLt a b = true → lexLt b a = false := by
  intro a
  induction a with
  | nil =>
    intro b h
    cases b with
    | nil => simp [lexLt] at h
    | cons c cs => rfl
  | cons x xs ih =>
    intro b h
    cases b with
    | nil => simp [lexLt] at h
    | cons y ys =>
      simp only [lexLt] at h ⊢
      by_cases h1 : charLt x y = true
      · have h2 : charLt y x = false := by
          simp only [charLt, decide_eq_true_eq, decide_eq_false_iff_not] at h1 ⊢
          omega
        simp [h1, h2]
      · by_cases h2 : charLt y x = true
        · simp [h1, h2] at h
        · simp [h1, h2] at h
          simp [h1, h2, ih ys h]

/-- Linear-order interpolation: if `x < v` then `x < m` or `m < v`. -/
lemma lexLt_interpolate : ∀ x m v : List Char,
    lexLt x v = true → lexLt x m = true ∨ lexLt m v = true := by
  intro x
  induction x with
  | nil =>
    intro m v h
    cases v with
    | nil => simp [lexLt] at h
    | cons c cs =>
      cases m with
      | nil => exact Or.inr rfl
      | cons d ds => exact Or.inl rfl
  | cons a as ih =>
    intro m v h
    cases v with
    | nil => simp [lexLt] at h
    | cons c cs =>
      cases m with
      | nil => exact Or.inr rfl
      | cons b bs =>
        simp only [lexLt] at h ⊢
        by_cases hac : charLt a c = true
        · by_cases hab : charLt a b = true
          · left; simp [hab]
          · have hbc : charLt b c = true := by
              simp only [charLt, decide_eq_true_eq, decide_eq_false_iff_not] at hac hab ⊢
              omega
            right; simp [hbc]
        · by_cases hca : charLt c a = true
          · simp [hac, hca] at h
          · simp only [hac, hca, if_false] at h
            by_cases hab : charLt a b = true
            · left; simp [hab]
            · by_cases hba : charLt b a = true
              · have hbc : charLt b c = true := by
                  simp only [charLt, decide_eq_true_eq, decide_eq_false_iff_not] at hac hca hba ⊢
                  omega
                right; simp [hbc]
              · have hbc : charLt b c = false := by
                  simp only [charLt, decide_eq_true_eq, decide_eq_false_iff_not] at hac hca hab hba ⊢
                  omega
                have hcb : charLt c b = false := by
                  simp only [charLt, decide_eq_true_eq, decide_eq_false_iff_not] at hac hca hab hba ⊢
                  omega
                rcases ih bs cs h with h' | h'
                · left; simp [hab, hba, h']
                · right; simp [hbc, hcb, h']

/-- Transitivity of not-strictly-below. -/
lemma pyStrLt_false_trans (x m v : String) (h1 : pyStrLt x m = false)
    (h2 : pyStrLt m v = false) : pyStrLt x v = false := by
  by_contra hc
  rw [Bool.not_eq_false] at hc
  rcases lexLt_interpolate x.data m.data v.data hc with h | h
  · rw [pyStrLt] at h1; rw [h1] at h; exact Bool.false_ne_true h
  · rw [pyStrLt] at h2; rw [h2] at h; exact Bool.false_ne_true h

/-! ### Properties of the series minimum and maximum -/

lemma seriesMinVal_eq_none (l : List String) : seriesMinVal l = none ↔ l = [] := by
  cases l with
  | nil => simp [seriesMinVal]
  | cons v rest =>
    simp only [seriesMinVal]
    constructor
    · intro h
      cases hr : seriesMinVal rest <;> rw [hr] at h <;> simp at h
    · intro h
      exact absurd h (List.cons_ne_nil v rest)

lemma seriesMaxVal_eq_none (l : List String) : seriesMaxVal l = none ↔ l = [] := by
  cases l with
  | nil => simp [seriesMaxVal]
  | cons v rest =>
    simp only [seriesMaxVal]
    constructor
    · intro h
      cases hr : seriesMaxVal rest <;> rw [hr] at h <;> simp at h
    · intro h
      exact absurd h (List.cons_ne_nil v rest)

lemma seriesMinVal_mem : ∀ (l : List String) (m : String),
    seriesMinVal l = some m → m ∈ l := by
  intro l
  induction l with
  | nil => intro m h; simp [seriesMinVal] at h
  | cons v rest ih =>
    intro m h
    simp only [seriesMinVal] at h
    cases hr : seriesMinVal rest with
    | none =>
      rw [hr] at h
      simp only [Option.some.injEq] at h
      exact h ▸ List.mem_cons_self v rest
    | some m' =>
      rw [hr] at h
      simp only [Option.some.injEq] at h
      subst h
      rw [pyMin]
      by_cases hlt : pyStrLt m' v = true
      · simp only [hlt, if_true]
        exact List.mem_cons_of_mem v (ih m' hr)
      · simp only [hlt, if_false]
        exact List.mem_cons_self v rest

lemma seriesMaxVal_mem : ∀ (l : List String) (m : String),
    seriesMaxVal l = some m → m ∈ l := by
  intro l
  induction l with
  | nil => intro m h; simp [seriesMaxVal] at h
  | cons v rest ih =>
    intro m h
    simp only [seriesMaxVal] at h
    cases hr : seriesMaxVal rest with
    | none =>
      rw [hr] at h
      simp only [Option.some.injEq] at h
      exact h ▸ List.mem_cons_self v rest
    | some m' =>
      rw [hr] at h
      simp only [Option.some.injEq] at h
      subst h
      rw [pyMax]
      by_cases hlt : pyStrLt v m' = true
      · simp only [hlt, if_true]
        exact List.mem_cons_of_mem v (ih m' hr)
      · simp only [hlt, if_false]
        exact List.mem_cons_self v rest

lemma pyStrLt_irrefl (v : String) : pyStrLt v v = false :=
  lexLt_irrefl v.data

lemma seriesMinVal_le : ∀ (l : List String) (m : String),
    seriesMinVal l = some m → ∀ x ∈ l, pyStrLt x m = false := by
  intro l
  induction l with
  | nil => intro m h; simp [seriesMinVal] at h
  | cons v rest ih =>
    intro m h x hx
    simp only [seriesMinVal] at h
    cases hr : seriesMinVal rest with
    | none =>
      rw [hr] at h
      simp only [Option.some.injEq] at h
      subst h
      have : rest = [] := (seriesMinVal_eq_none rest).mp hr
      subst this
      simp only [List.mem_singleton] at hx
      subst hx
      exact pyStrLt_irrefl _
    | some m' =>
      rw [hr] at h
      simp only [Option.some.injEq] at h
      subst h
      rw [pyMin]
      by_cases hlt : pyStrLt m' v = true
      · simp only [hlt, if_true]
        rcases List.mem_cons.mp hx with hxv | hxr
        · subst hxv
          exact lexLt_asymm m'.data x.data hlt
        · exact ih m' hr x hxr
      · simp only [hlt, if_false]
        rcases List.mem_cons.mp hx with hxv | hxr
        · subst hxv
          exact pyStrLt_irrefl x
        · have h1 : pyStrLt x m' = false := ih m' hr x hxr
          have h2 : pyStrLt m' v = false := Bool.not_eq_true _ ▸ eq_false_of_ne_true hlt
          exact pyStrLt_false_trans x m' v h1 h2

lemma seriesMaxVal_ge : ∀ (l : List String) (m : String),
    seriesMaxVal l = some m → ∀ x ∈ l, pyStrLt m x = false := by
  intro l
  induction l with
  | nil => intro m h; simp [seriesMaxVal] at h
  | cons v rest ih =>
    intro m h x hx
    simp only [seriesMaxVal] at h
    cases hr : seriesMaxVal rest with
    | none =>
      rw [hr] at h
      simp only [Option.some.injEq] at h
      subst h
      have : rest = [] := (seriesMaxVal_eq_none rest).mp hr
      subst this
      simp only [List.mem_singleton] at hx
      subst hx
      exact pyStrLt_irrefl _
    | some m' =>
      rw [hr] at h
      simp only [Option.some.injEq] at h
      subst h
      rw [pyMax]
      by_cases hlt : pyStrLt v m' = true
      · simp only [hlt, if_true]
        rcases List.mem_cons.mp hx with hxv | hxr
        · subst hxv
          exact lexLt_asymm x.data m'.data hlt
        · exact ih m' hr x hxr
      · simp only [hlt, if_false]
        rcases List.mem_cons.mp hx with hxv | hxr
        · subst hxv
          exact pyStrLt_irrefl x
        · have h1 : pyStrLt m' x = false := ih m' hr x hxr
          have h2 : pyStrLt v m' = false := eq_false_of_ne_true hlt
          exact pyStrLt_false_trans v m' x h2 h1

lemma lookup_mem_keys : ∀ (cols : List (String × List String)) (name : String)
    (vs : List String), cols.lookup name = some vs → name ∈ cols.map Prod.fst := by
  intro cols
  induction cols with
  | nil => intro name vs h; simp [List.lookup] at h
  | cons p rest ih =>
    intro name vs h
    obtain ⟨k, v⟩ := p
    simp only [List.lookup] at h
    by_cases hk : name = k
    · subst hk
      simp
    · rw [beq_eq_false_iff_ne.mpr hk] at h
      exact List.mem_cons_of_mem _ (ih name vs h)

/-! ### Properties of the pagination loop -/

lemma fetchAllLoop_cap_zero {α : Type} (batch : Nat) :
    ∀ (pages : List (List α)) (offset : Nat),
      fetchAllLoop batch (some 0) pages offset = fetchAllLoop batch none pages offset := by
  intro pages
  induction pages with
  | nil => intro offset; rfl
  | cons p rest ih =>
    intro offset
    simp only [fetchAllLoop]
    by_cases hp : p.isEmpty = true
    · simp [hp]
    · have hcap : capReached (some 0) (offset + p.length) = false := by
        simp [capReached]
      have hcap' : capReached none (offset + p.length) = false := rfl
      simp [hp, hcap, hcap', ih]

/-- Extract arithmetic from a failed cap check. -/
lemma capReached_false_lt (m : Int) (hm : 0 < m) (o : Nat)
    (h : ¬ capReached (some m) o = true) : (o : Int) < m := by
  simp only [capReached, Bool.and_eq_true, bne_iff_ne, ne_eq, decide_eq_true_eq] at h
  rcases not_and_or.mp h with h' | h'
  · omega
  · omega

lemma fetchAllLoop_bound {α : Type} (batch : Nat) (m : Int) (hm : 0 < m) :
    ∀ (pages : List (List α)), (∀ p ∈ pages, p.length ≤ batch) →
    ∀ offset : Nat, (offset : Int) < m →
      ((offset : Int) + ((fetchAllLoop batch (some m) pages offset).2.flatten.length : Int))
        ≤ m + (batch : Int) - 1 := by
  intro pages
  induction pages with
  | nil =>
    intro _ offset hoff
    simp only [fetchAllLoop, List.flatten_nil, List.length_nil, Nat.cast_zero, add_zero]
    omega
  | cons p rest ih =>
    intro hpg offset hoff
    have hple : p.length ≤ batch := hpg p (List.mem_cons_self p rest)
    simp only [fetchAllLoop]
    by_cases hp : p.isEmpty = true
    · simp only [hp, if_true, List.flatten_nil, List.length_nil, Nat.cast_zero, add_zero]
      omega
    · by_cases hcap : capReached (some m) (offset + p.length) = true
      · simp only [hp, if_false, hcap, if_true, List.flatten_cons, List.flatten_nil,
          List.append_nil, Bool.false_eq_true]
        omega
      · by_cases hshort : p.length < batch
        · simp only [hp, hcap, hshort, if_true, if_false, List.flatten_cons,
            List.flatten_nil, List.append_nil, Bool.false_eq_true]
          have : (offset : Int) < m := hoff
          omega
        · have hoff' : ((offset + p.length : Nat) : Int) < m :=
            capReached_false_lt m hm _ hcap
          have hrec := ih (fun q hq => hpg q (List.mem_cons_of_mem p hq))
            (offset + p.length) hoff'
          simp only [hp, hcap, hshort, if_false, Bool.false_eq_true, List.flatten_cons,
            List.length_append]
          push_cast at hrec ⊢
          omega

lemma fetchAllLoop_no_overrun {α : Type} (batch : Nat) (m : Int) (hm : 0 < m) :
    ∀ (pages : List (List α)) (offset : Nat), (offset : Int) < m →
      ∀ i : Nat, i + 1 < (fetchAllLoop batch (some m) pages offset).2.length →
      ((offset : Int) +
          ((((fetchAllLoop batch (some m) pages offset).2.take (i + 1)).flatten.length : Nat) : Int))
        < m := by
  intro pages
  induction pages with
  | nil =>
    intro offset hoff i hi
    simp [fetchAllLoop] at hi
  | cons p rest ih =>
    intro offset hoff i hi
    simp only [fetchAllLoop] at hi ⊢
    by_cases hp : p.isEmpty = true
    · simp [hp] at hi
    · by_cases hcap : capReached (some m) (offset + p.length) = true
      · simp [hp, hcap] at hi
      · by_cases hshort : p.length < batch
        · simp [hp, hcap, hshort] at hi
        · have hoff' : ((offset + p.length : Nat) : Int) < m :=
            capReached_false_lt m hm _ hcap
          simp only [hp, hcap, hshort, if_false, Bool.false_eq_true,
            List.length_cons] at hi ⊢
          cases i with
          | zero =>
            simp only [zero_add, List.take_succ_cons, List.take_zero,
              List.flatten_cons, List.flatten_nil, List.append_nil]
            push_cast at hoff' ⊢
            omega
          | succ j =>
            have hrec := ih (offset + p.length) hoff' j (by omega)
            simp only [List.take_succ_cons, List.flatten_cons, List.length_append]
            push_cast at hrec ⊢
            omega

/-! ### Properties of replace-all -/

lemma isPrefixOf_self : ∀ l : List Char, l.isPrefixOf l = true := by
  intro l
  induction l with
  | nil => rfl
  | cons c t ih => simp [List.isPrefixOf, ih]

lemma replaceAllAux_clean (pat rep : List Char) (hpat : pat ≠ []) :
    ∀ (stem : List Char) (fuel : Nat), (stem ++ pat).length ≤ fuel →
      noInnerOccur pat stem = true →
      replaceAllAux pat rep fuel (stem ++ pat) = stem ++ rep := by
  intro stem
  induction stem with
  | nil =>
    intro fuel hfuel _
    simp only [List.nil_append] at hfuel ⊢
    cases pat with
    | nil => exact absurd rfl hpat
    | cons c t =>
      cases fuel with
      | zero => simp at hfuel
      | succ f =>
        have hpre : (c :: t).isPrefixOf (c :: t) = true :=
          isPrefixOf_self (c :: t)
        rw [replaceAllAux, if_pos ⟨hpre, hpat⟩]
        have hdrop : List.drop ((c :: t).length - 1) t = [] := by
          simp [List.length_cons]
        rw [hdrop]
        rw [show replaceAllAux (c :: t) rep f [] = [] from by cases f <;> rfl]
        simp
  | cons c st ih =>
    intro fuel hfuel hclean
    simp only [noInnerOccur, Bool.and_eq_true, Bool.not_eq_true'] at hclean
    obtain ⟨hnp, hclean'⟩ := hclean
    cases fuel with
    | zero => simp at hfuel
    | succ f =>
      simp only [List.cons_append]
      rw [replaceAllAux]
      have hcond : ¬ (pat.isPrefixOf (c :: (st ++ pat)) = true ∧ pat ≠ []) := by
        intro hc
        rw [show c :: (st ++ pat) = (c :: st) ++ pat from rfl] at hc
        rw [hnp] at hc
        exact Bool.false_ne_true hc.1
      rw [if_neg hcond]
      have hfuel' : (st ++ pat).length ≤ f := by
        simp only [List.cons_append, List.length_cons] at hfuel
        omega
      rw [ih f hfuel' hclean']

/-! ### Projection equations for a pagination run -/

lemma fetch_all_records_offsets_eq {α : Type} (pages : List (List α)) (b : Nat)
    (mx : Option Int) :
    (fetch_all_records pages b mx).offsets = (fetchAllLoop b mx pages 0).1 := rfl

lemma fetch_all_records_batches_eq {α : Type} (pages : List (List α)) (b : Nat)
    (mx : Option Int) :
    (fetch_all_records pages b mx).batches = (fetchAllLoop b mx pages 0).2 := rfl

lemma fetch_all_records_records_eq {α : Type} (pages : List (List α)) (b : Nat)
    (mx : Option Int) :
    (fetch_all_records pages b mx).records = (fetchAllLoop b mx pages 0).2.flatten := rfl

/-! ### The claims -/

/-- C1: for every call to `fetch_records`, whatever limit the caller
requests, the `resultRecordCount` query parameter equals
`min(limit, 2000)` and therefore never exceeds 2000. -/
theorem fetch_records_params_record_count_capped (limit offset : Int)
    (where_clause : String) (fields : Option (List String))
    (return_geometry : Bool) (order_by : Option String) :
    (fetch_records_params limit offset where_clause fields return_geometry
        order_by).resultRecordCount = min limit 2000 ∧
    (fetch_records_params limit offset where_clause fields return_geometry
        order_by).resultRecordCount ≤ 2000 :=
  ⟨rfl, min_le_right _ _⟩

/-- C2: with batch size 2000 and no cap, pages of sizes 2000, 2000, 437
give exactly 3 executor calls at offsets 0, 2000, 4000, and the
accumulated result is the in-order concatenation with 4437 rows. -/
theorem fetch_all_records_three_page_run {α : Type} (p1 p2 p3 : List α)
    (h1 : p1.length = 2000) (h2 : p2.length = 2000) (h3 : p3.length = 437) :
    (fetch_all_records [p1, p2, p3] 2000 none).offsets = [0, 2000, 4000] ∧
    (fetch_all_records [p1, p2, p3] 2000 none).offsets.length = 3 ∧
    (fetch_all_records [p1, p2, p3] 2000 none).records = p1 ++ p2 ++ p3 ∧
    (fetch_all_records [p1, p2, p3] 2000 none).records.length = 4437 := by
  have n1 : p1.isEmpty = false := by
    cases p1 with
    | nil => simp at h1
    | cons a l => rfl
  have n2 : p2.isEmpty = false := by
    cases p2 with
    | nil => simp at h2
    | cons a l => rfl
  have n3 : p3.isEmpty = false := by
    cases p3 with
    | nil => simp at h3
    | cons a l => rfl
  refine ⟨?_, ?_, ?_, ?_⟩
  · simp [fetch_all_records_offsets_eq, fetchAllLoop, capReached, n1, n2, n3,
      h1, h2, h3]
  · simp [fetch_all_records_offsets_eq, fetchAllLoop, capReached, n1, n2, n3,
      h1, h2, h3]
  · simp [fetch_all_records_records_eq, fetchAllLoop, capReached, n1, n2, n3,
      h1, h2, h3]
  · simp [fetch_all_records_records_eq, fetchAllLoop, capReached, n1, n2, n3,
      h1, h2, h3]

/-- Witness for C2 at concrete pages. -/
theorem fetch_all_records_three_page_run_witness :
    (fetch_all_records [List.replicate 2000 (0 : Nat), List.replicate 2000 1,
        List.replicate 437 2] 2000 none).offsets = [0, 2000, 4000] ∧
    (fetch_all_records [List.replicate 2000 (0 : Nat), List.replicate 2000 1,
        List.replicate 437 2] 2000 none).offsets.length = 3 ∧
    (fetch_all_records [List.replicate 2000 (0 : Nat), List.replicate 2000 1,
        List.replicate 437 2] 2000 none).records
      = List.replicate 2000 (0 : Nat) ++ List.replicate 2000 1 ++ List.replicate 437 2 ∧
    (fetch_all_records [List.replicate 2000 (0 : Nat), List.replicate 2000 1,
        List.replicate 437 2] 2000 none).records.length = 4437 :=
  fetch_all_records_three_page_run (List.replicate 2000 (0 : Nat))
    (List.replicate 2000 1) (List.replicate 437 2)
    (by simp only [List.length_replicate]) (by simp only [List.length_replicate])
    (by simp only [List.length_replicate])

/-- C3: a positive `max_records` cap is a soft cap: the accumulated
result exceeds the cap by at most one batch size minus one (given every
page is at most the batch size); the loop never continues past a batch
after which the running total reached the cap, so every proper prefix of
the appended batches totals strictly below the cap; and with
`max_records = 1000` and a first page of exactly 1000 rows (equal to the
batch size) pagination stops after exactly 1 call. -/
theorem fetch_all_records_soft_cap {α : Type} (batch_size : Nat) (m : Int)
    (pages : List (List α)) (hm : 0 < m)
    (hpg : ∀ p ∈ pages, p.length ≤ batch_size) :
    (((fetch_all_records pages batch_size (some m)).records.length : Int)
        ≤ m + (batch_size : Int) - 1) ∧
    (∀ i : Nat,
      i + 1 < (fetch_all_records pages batch_size (some m)).batches.length →
      ((((fetch_all_records pages batch_size (some m)).batches.take
          (i + 1)).flatten.length : Int) < m)) ∧
    (∀ (q : List α) (rest : List (List α)), q.length = 1000 →
      (fetch_all_records (q :: rest) 1000 (some 1000)).offsets.length = 1) := by
  refine ⟨?_, ?_, ?_⟩
  · have hb := fetchAllLoop_bound batch_size m hm pages hpg 0 (by exact_mod_cast hm)
    rw [fetch_all_records_records_eq]
    push_cast at hb ⊢
    omega
  · intro i hi
    rw [fetch_all_records_batches_eq] at hi ⊢
    have hn := fetchAllLoop_no_overrun batch_size m hm pages 0
      (by exact_mod_cast hm) i hi
    push_cast at hn ⊢
    omega
  · intro q rest hq
    have nq : q.isEmpty = false := by
      cases q with
      | nil => simp at hq
      | cons a l => rfl
    rw [fetch_all_records_offsets_eq]
    simp [fetchAllLoop, capReached, nq, hq]

/-- Witness for C3 at a concrete one-page run hitting the cap exactly. -/
theorem fetch_all_records_soft_cap_witness :
    (((fetch_all_records [List.replicate 1000 (0 : Nat)] 1000
        (some 1000)).records.length : Int) ≤ 1000 + (1000 : Int) - 1) ∧
    (fetch_all_records (List.replicate 1000 (0 : Nat) :: []) 1000
        (some 1000)).offsets.length = 1 :=
  have h := fetch_all_records_soft_cap 1000 1000 [List.replicate 1000 (0 : Nat)]
    (by norm_num) (by
      intro p hp
      simp only [List.mem_singleton] at hp
      subst hp
      simp only [List.length_replicate]
      omega)
  ⟨h.1, h.2.2 (List.replicate 1000 (0 : Nat)) []
    (by simp only [List.length_replicate])⟩

/-- C4: an empty first page means exactly one executor call and an empty
accumulated result returned as a normal value; a run that appends zero
pages (also when the executor is exhausted immediately) returns an
explicitly empty result. -/
theorem fetch_all_records_empty_first_page {α : Type} (batch_size : Nat)
    (max_records : Option Int) (rest : List (List α)) :
    (fetch_all_records (([] : List α) :: rest) batch_size max_records).offsets.length = 1 ∧
    (fetch_all_records (([] : List α) :: rest) batch_size max_records).records = [] ∧
    (fetch_all_records ([] : List (List α)) batch_size max_records).offsets.length = 1 ∧
    (fetch_all_records ([] : List (List α)) batch_size max_records).records = [] :=
  ⟨rfl, rfl, rfl, rfl⟩

/-- C5: a decoded body with a top-level `error` key makes
`fetch_records` raise the `ApiError`-kind failure carrying the payload
and never return a result, although the transport succeeded. -/
theorem fetch_records_error_key_raises (timeout : Int) (body : ApiBody)
    (payload : String) (h : body.error = some payload) :
    fetch_records_core timeout (.ok body) = .error (apiErrorMsg payload) ∧
    ∀ rows : List RawRow, fetch_records_core timeout (.ok body) ≠ .ok rows := by
  have hcore : fetch_records_core timeout (.ok body)
      = .error (apiErrorMsg payload) := by
    simp [fetch_records_core, make_request, h]
  exact ⟨hcore, fun rows hc => by rw [hcore] at hc; exact Except.noConfusion hc⟩

/-- Witness for C5 at a concrete erroring body. -/
theorem fetch_records_error_key_raises_witness :
    fetch_records_core 30 (.ok ⟨some "Invalid query", some []⟩)
      = .error (apiErrorMsg "Invalid query") ∧
    ∀ rows : List RawRow,
      fetch_records_core 30 (.ok ⟨some "Invalid query", some []⟩) ≠ .ok rows :=
  fetch_records_error_key_raises 30 ⟨some "Invalid query", some []⟩
    "Invalid query" rfl

/-- C6: a timeout raises the `TimeoutError`-kind message carrying the
configured duration, any other transport failure raises the
`TransportError`-kind message carrying the underlying text, and the
three message shapes (timeout, transport, API error) are distinguishable
by a classifier on the raised message alone. -/
theorem make_request_error_taxonomy (timeout : Int) (msg payload : String) :
    make_request (α := ApiBody) timeout .timeout = .error (timeoutMsg timeout) ∧
    make_request (α := ApiBody) timeout (.requestException msg)
      = .error (transportMsg msg) ∧
    classifyError (timeoutMsg timeout) = some .timeoutK ∧
    classifyError (transportMsg msg) = some .transportK ∧
    classifyError (apiErrorMsg payload) = some .apiK :=
  ⟨rfl, rfl, rfl, rfl, rfl⟩

/-- C7: the metadata sidecar records exactly the row count and the
column names of the saved table; its date-range bounds are the true
minimum and maximum of the `Created_at_local` column when present (and
nonempty), and are null when the column is absent. -/
theorem save_metadata_correct (df : PdDataFrame) :
    (save_metadata df).record_count = nRows df ∧
    (save_metadata df).columns = columnsOf df ∧
    ((¬ "Created_at_local" ∈ columnsOf df) →
      (save_metadata df).date_min = none ∧ (save_metadata df).date_max = none) ∧
    (∀ vs, df.cols.lookup "Created_at_local" = some vs → vs ≠ [] →
      ∃ lo hi, (save_metadata df).date_min = some lo ∧
        (save_metadata df).date_max = some hi ∧
        lo ∈ vs ∧ hi ∈ vs ∧
        ∀ x ∈ vs, pyStrLt x lo = false ∧ pyStrLt hi x = false) := by
  refine ⟨rfl, rfl, ?_, ?_⟩
  · intro hnot
    constructor <;> simp [save_metadata, hnot]
  · intro vs hvs hne
    have hmem : "Created_at_local" ∈ columnsOf df :=
      lookup_mem_keys df.cols _ vs hvs
    have hcol : getCol df "Created_at_local" = vs := by simp [getCol, hvs]
    obtain ⟨lo, hlo⟩ : ∃ lo, seriesMinVal vs = some lo := by
      cases hmv : seriesMinVal vs with
      | none => exact absurd ((seriesMinVal_eq_none vs).mp hmv) hne
      | some lo => exact ⟨lo, rfl⟩
    obtain ⟨hi, hhi⟩ : ∃ hi, seriesMaxVal vs = some hi := by
      cases hmv : seriesMaxVal vs with
      | none => exact absurd ((seriesMaxVal_eq_none vs).mp hmv) hne
      | some hi => exact ⟨hi, rfl⟩
    refine ⟨lo, hi, ?_, ?_, seriesMinVal_mem vs lo hlo,
      seriesMaxVal_mem vs hi hhi, ?_⟩
    · simp [save_metadata, hmem, hcol, seriesMinStr, hlo]
    · simp [save_metadata, hmem, hcol, seriesMaxStr, hhi]
    · intro x hx
      exact ⟨seriesMinVal_le vs lo hlo x hx, seriesMaxVal_ge vs hi hhi x hx⟩

/-- Witness for C7 at a concrete two-column frame. -/
theorem save_metadata_correct_witness :
    ∃ lo hi,
      (save_metadata ⟨[("Id", ["1", "2"]),
          ("Created_at_local", ["2021-03-01", "2021-01-15"])]⟩).date_min
        = some lo ∧
      (save_metadata ⟨[("Id", ["1", "2"]),
          ("Created_at_local", ["2021-03-01", "2021-01-15"])]⟩).date_max
        = some hi ∧
      lo ∈ ["2021-03-01", "2021-01-15"] ∧ hi ∈ ["2021-03-01", "2021-01-15"] ∧
      ∀ x ∈ ["2021-03-01", "2021-01-15"],
        pyStrLt x lo = false ∧ pyStrLt hi x = false :=
  (save_metadata_correct ⟨[("Id", ["1", "2"]),
      ("Created_at_local", ["2021-03-01", "2021-01-15"])]⟩).2.2.2
    ["2021-03-01", "2021-01-15"] (by decide) (by decide)

/-- C8 counterexample: the sidecar path is not always the tabular path
with only the trailing suffix swapped — Python `str.replace` also
rewrites an interior occurrence, as in this path. -/
theorem metadata_path_not_only_suffix_swap :
    metadata_path "data/raw/a.csv.csv"
      = "data/raw/a_metadata.json_metadata.json" ∧
    metadata_path "data/raw/a.csv.csv" ≠ spec_suffix_swap "data/raw/a.csv.csv" := by
  constructor
  · decide
  · decide

/-- C8 amended: the sidecar path replaces every occurrence of the
tabular suffix in the path; when the suffix occurs only as the path's
trailing four characters, this coincides with the suffix swap. -/
theorem metadata_path_suffix_swap_when_clean (stem : String)
    (hclean : noInnerOccur ".csv".data stem.data = true) :
    metadata_path (stem ++ ".csv") = stem ++ "_metadata.json" := by
  unfold metadata_path replaceAll
  rw [show (stem ++ ".csv").data = stem.data ++ ".csv".data from
    String.data_append ..]
  rw [replaceAllAux_clean ".csv".data "_metadata.json".data (by decide)
    stem.data _ (le_refl _) hclean]
  rw [← String.data_append]

/-- Witness for the amended C8 at a concrete clean path. -/
theorem metadata_path_suffix_swap_witness :
    noInnerOccur ".csv".data "data/raw/syracuse_311_raw".data = true ∧
    metadata_path ("data/raw/syracuse_311_raw" ++ ".csv")
      = "data/raw/syracuse_311_raw" ++ "_metadata.json" :=
  ⟨by decide,
    metadata_path_suffix_swap_when_clean "data/raw/syracuse_311_raw" (by decide)⟩

/-- C9: every failure during the field-metadata fetch is caught and
degrades to an empty list; the operation is total and never propagates a
failure (a malformed descriptor also degrades to the empty list through
the same catch-all). -/
theorem get_field_info_catches_failures (msg : String) (fields : List ApiField) :
    get_field_info (Except.error msg) = [] ∧
    (get_field_info (Except.ok fields) = fields ∨
      get_field_info (Except.ok fields) = []) := by
  refine ⟨rfl, ?_⟩
  by_cases h : fields.all (fun f => f.name.isSome && f.ftype.isSome) = true
  · left
    simp [get_field_info, h]
  · right
    simp [get_field_info, h]

/-- C10: a `max_records` of 0 is falsy in the cap test, so the run is
identical to a run with no cap at all — it fetches all available
records rather than zero. -/
theorem fetch_all_records_zero_cap_like_none {α : Type} (pages : List (List α))
    (batch_size : Nat) :
    fetch_all_records pages batch_size (some 0)
      = fetch_all_records pages batch_size none := by
  simp [fetch_all_records, fetchAllLoop_cap_zero]
